import Mathlib

/-!
Shallow embedding of the booking service in `src/api/v1/app/services.py`
(class `Services`), together with the `Booking` document of
`src/api/v1/app/schemas.py`.  Calendar dates carry no time-of-day component
and are modelled as day numbers (`Nat`); the reservation store is a list of
`Booking` documents and the MongoDB queries of the source become filters,
sorts and membership tests over that list.
-/

/-- The `Booking` document of `schemas.py`: a resource reference, an optional
user reference, and the start and end calendar dates. -/
structure Booking where
  resource : Nat
  user : Option Nat
  start_date : Nat
  end_date : Nat
  deriving DecidableEq

/-- The outcome of `Services.book_resource`: the past-date and duplicate
exceptions, the conflict report with its list of available windows, and the
successful commit carrying the persisted booking. -/
inductive BookResult where
  | pastDateError
  | duplicateError
  | conflicted (conflicts : Nat) (available_dates : List (Nat × Nat))
  | success (booking : Booking)
  deriving DecidableEq

/-- True when the result is a successful commit. -/
def BookResult.isSuccess : BookResult → Bool
  | .success _ => true
  | _ => false

/-- The overlap test of services.py line 202: the candidate range conflicts
with the existing reservation `c` when either candidate endpoint lies inside
the half-open interval from `c.start_date` to `c.end_date`. -/
def conflictsWith (new_start new_end : Nat) (c : Booking) : Bool :=
  decide ((c.start_date ≤ new_start ∧ new_start < c.end_date) ∨
    (c.start_date ≤ new_end ∧ new_end < c.end_date))

/-- The loop of services.py lines 192-213 over the fetched ordered sequence:
counts the reservations that conflict with the candidate and collects the
window between each consecutive pair whose dates do not overlap.  The last
element contributes no window (the `size - i == 1` guard). -/
def walk (new_start new_end : Nat) : List Booking → Nat × List (Nat × Nat)
  | [] => (0, [])
  | [c] => ((if conflictsWith new_start new_end c then 1 else 0), [])
  | c :: nxt :: rest =>
    ((if conflictsWith new_start new_end c then 1 else 0) +
        (walk new_start new_end (nxt :: rest)).1,
      (if c.end_date ≤ nxt.start_date then [(c.end_date, nxt.start_date)] else []) ++
        (walk new_start new_end (nxt :: rest)).2)

/-- Comparison by start date, the `order_by('start_date')` of the fetch query. -/
def byStart (a b : Booking) : Prop := a.start_date ≤ b.start_date

instance : DecidableRel byStart := fun a b =>
  inferInstanceAs (Decidable (a.start_date ≤ b.start_date))

instance : IsTotal Booking byStart := ⟨fun a b => Nat.le_total a.start_date b.start_date⟩

instance : IsTrans Booking byStart := ⟨fun _ _ _ h h2 => Nat.le_trans h h2⟩

/-- The query of services.py lines 180-181: the resource's bookings whose start
date is on/after `today`, ordered ascending by start date. -/
def fetchFutureReservations (resource today : Nat) (store : List Booking) : List Booking :=
  List.insertionSort byStart
    (store.filter (fun b => b.resource == resource && decide (today ≤ b.start_date)))

/-- `Services.book_resource` (services.py lines 157-231): reject past dates,
reject an exact duplicate, fetch the resource's future timeline; commit at once
when the timeline is empty, otherwise walk it and either commit (no conflict)
or report the conflict count and the available windows.  The result is returned
together with the reservation store after the call. -/
def book_resource (today resource new_start new_end : Nat) (user_id : Option Nat)
    (store : List Booking) : BookResult × List Booking :=
  if today > new_start ∨ today > new_end then
    (.pastDateError, store)
  else if store.any (fun b =>
      b.resource == resource && b.start_date == new_start && b.end_date == new_end) then
    (.duplicateError, store)
  else if fetchFutureReservations resource today store = [] then
    (.success ⟨resource, user_id, new_start, new_end⟩,
      store ++ [⟨resource, user_id, new_start, new_end⟩])
  else if (walk new_start new_end (fetchFutureReservations resource today store)).1 = 0 then
    (.success ⟨resource, user_id, new_start, new_end⟩,
      store ++ [⟨resource, user_id, new_start, new_end⟩])
  else
    (.conflicted (walk new_start new_end (fetchFutureReservations resource today store)).1
      (walk new_start new_end (fetchFutureReservations resource today store)).2, store)

/-- The mutable state of the `Services` instance: the hidden `self.__user_id`
field set in `__init__` and overwritten by `get_user_from_session_id`. -/
structure ServiceState where
  user_id : Option Nat
  deriving DecidableEq

/-- `Services.__init__` (services.py line 36): the hidden user id starts as `None`. -/
def Services.init : ServiceState := ⟨none⟩

/-- A stored `User` document, reduced to the identifier the session lookup needs. -/
structure UserRec where
  id : Nat
  deriving DecidableEq

/-- `Services.get_user_from_session_id` (services.py lines 86-102): look the
session id up in the session store; on a miss return `None` and leave the state
alone, on a hit hold on to the found user id and return the matching user. -/
def get_user_from_session_id (sessions : List (Nat × Nat)) (users : List UserRec)
    (session_id : Nat) (s : ServiceState) : Option UserRec × ServiceState :=
  match sessions.lookup session_id with
  | none => (none, s)
  | some uid => (users.find? (fun u => u.id == uid), { s with user_id := some uid })

/-- `Services.list_bookings` (services.py lines 253-261): the bookings whose
user is the hidden user id and whose end date is on/after today. -/
def list_bookings (today : Nat) (s : ServiceState) (store : List Booking) : List Booking :=
  store.filter (fun b => b.user == s.user_id && decide (today ≤ b.end_date))

/-- The dates of a gap list, flattened in emission order. -/
def gapDates : List (Nat × Nat) → List Nat
  | [] => []
  | g :: gs => g.1 :: g.2 :: gapDates gs

/-- The conflict counter of the walk counts exactly the reservations matched by
the line-202 test. -/
theorem walk_fst_eq_countP (ns ne : Nat) (l : List Booking) :
    (walk ns ne l).1 = l.countP (conflictsWith ns ne) := by
  induction l with
  | nil => rfl
  | cons c rest ih =>
    cases rest with
    | nil => simp [walk, List.countP_cons]
    | cons nxt rest2 =>
      cases hc : conflictsWith ns ne c <;>
        simp [walk, List.countP_cons, hc, ih] <;> omega

/-- C1: the walk counts a conflict for an existing reservation exactly when one
of the candidate's endpoints lies inside the reservation's half-open interval;
consequently a candidate that strictly contains an existing reservation is not
counted, and a candidate whose start equals an existing reservation's end (for
a candidate with start ≤ end) is not counted. -/
theorem conflict_rule_correct (ns ne : Nat) (l : List Booking) :
    (walk ns ne l).1 = l.countP (conflictsWith ns ne) ∧
    (∀ c : Booking, conflictsWith ns ne c = true ↔
      ((c.start_date ≤ ns ∧ ns < c.end_date) ∨ (c.start_date ≤ ne ∧ ne < c.end_date))) ∧
    (∀ c : Booking, ns < c.start_date → c.end_date < ne → conflictsWith ns ne c = false) ∧
    (∀ c : Booking, ns ≤ ne → ns = c.end_date → conflictsWith ns ne c = false) := by
  refine ⟨walk_fst_eq_countP ns ne l, ?_, ?_, ?_⟩
  · intro c
    simp [conflictsWith]
  · intro c h1 h2
    simp only [conflictsWith, decide_eq_false_iff_not]
    omega
  · intro c h1 h2
    simp only [conflictsWith, decide_eq_false_iff_not]
    omega

/-- Witness for C1 at concrete inputs: one reservation counted by the rule, a
strictly-contained reservation not counted, and a touching reservation not
counted. -/
theorem conflict_rule_correct_witness :
    (walk 4 10 [⟨0, none, 1, 5⟩]).1 = List.countP (conflictsWith 4 10) [⟨0, none, 1, 5⟩] ∧
    (conflictsWith 4 10 ⟨0, none, 1, 5⟩ = true ↔
      (((1:Nat) ≤ 4 ∧ (4:Nat) < 5) ∨ ((1:Nat) ≤ 10 ∧ (10:Nat) < 5))) ∧
    conflictsWith 4 10 ⟨0, none, 6, 9⟩ = false ∧
    conflictsWith 4 10 ⟨0, none, 2, 4⟩ = false := by
  obtain ⟨h1, h2, h3, h4⟩ := conflict_rule_correct 4 10 [⟨0, none, 1, 5⟩]
  exact ⟨h1, h2 ⟨0, none, 1, 5⟩, h3 ⟨0, none, 6, 9⟩ (by decide) (by decide),
    h4 ⟨0, none, 2, 4⟩ (by decide) (by decide)⟩

/-- The gap component of the walk is the filter of the consecutive pairs of the
input whose dates do not overlap; in particular it does not depend on the
candidate range. -/
theorem walk_snd_eq_filterMap (ns ne : Nat) (l : List Booking) :
    (walk ns ne l).2 = (l.zip l.tail).filterMap
      (fun p => if p.1.end_date ≤ p.2.start_date then
        some (p.1.end_date, p.2.start_date) else none) := by
  induction l with
  | nil => rfl
  | cons c rest ih =>
    cases rest with
    | nil => simp [walk]
    | cons nxt rest2 =>
      by_cases hg : c.end_date ≤ nxt.start_date <;>
        simp [walk, hg, ih]

/-- C7: during the walk, a gap is emitted for each consecutive pair exactly when
the first reservation's end is at most the second's start, in walk order; the
emitted gap list does not depend on the candidate range. -/
theorem gap_emission_unconditional (ns ne ns2 ne2 : Nat) (l : List Booking) :
    (walk ns ne l).2 = (l.zip l.tail).filterMap
      (fun p => if p.1.end_date ≤ p.2.start_date then
        some (p.1.end_date, p.2.start_date) else none) ∧
    (walk ns ne l).2 = (walk ns2 ne2 l).2 :=
  ⟨walk_snd_eq_filterMap ns ne l,
    (walk_snd_eq_filterMap ns ne l).trans (walk_snd_eq_filterMap ns2 ne2 l).symm⟩

/-- Every emitted gap is the window between some consecutive pair of the walked
list whose dates do not overlap. -/
theorem walk_gaps_mem (ns ne : Nat) (l : List Booking) (g : Nat × Nat)
    (hg : g ∈ (walk ns ne l).2) :
    ∃ i c nxt, l[i]? = some c ∧ l[i+1]? = some nxt ∧
      c.end_date ≤ nxt.start_date ∧ g = (c.end_date, nxt.start_date) := by
  induction l generalizing g with
  | nil => simp [walk] at hg
  | cons c rest ih =>
    cases rest with
    | nil => simp [walk] at hg
    | cons nxt rest2 =>
      by_cases hcn : c.end_date ≤ nxt.start_date
      · simp only [walk, hcn, if_pos, List.singleton_append, List.mem_cons] at hg
        rcases hg with hg | hg
        · exact ⟨0, c, nxt, rfl, by simp, hcn, hg⟩
        · obtain ⟨i, c2, nxt2, h1, h2, h3, h4⟩ := ih g hg
          exact ⟨i + 1, c2, nxt2, by simpa using h1, by simpa using h2, h3, h4⟩
      · simp only [walk, hcn, if_neg, List.nil_append] at hg
        obtain ⟨i, c2, nxt2, h1, h2, h3, h4⟩ := ih g hg
        exact ⟨i + 1, c2, nxt2, by simpa using h1, by simpa using h2, h3, h4⟩

/-- When `book_resource` reports conflicts, the reported windows are exactly the
gap component of the walk over the fetched timeline. -/
theorem book_conflicted_gaps (today resource ns ne : Nat) (u : Option Nat)
    (store : List Booking) (n : Nat) (gs : List (Nat × Nat))
    (h : (book_resource today resource ns ne u store).1 = .conflicted n gs) :
    gs = (walk ns ne (fetchFutureReservations resource today store)).2 := by
  unfold book_resource at h
  split_ifs at h <;> simp_all

/-- Counterexample to C4: with today = 1, reservations from 3 to 5 and from 7
to 9, and a conflicting candidate from 3 to 4, the reported gap list is only
the window between the two reservations; the window from today to the first
reservation is absent, and nothing after the last reservation is reported. -/
theorem gap_coverage_cx :
    (book_resource 1 0 3 4 none [⟨0, none, 3, 5⟩, ⟨0, none, 7, 9⟩]).1 =
      .conflicted 1 [(5, 7)] ∧
    ((1 : Nat), (3 : Nat)) ∉ [((5 : Nat), (7 : Nat))] ∧
    ((9 : Nat), (9 : Nat)) ∉ [((5 : Nat), (7 : Nat))] := by decide

/-- C4 as amended: every window in a Conflicted report is the gap between two
consecutive reservations of the fetched sequence; no today-to-first or
after-last window is reported. -/
theorem gap_coverage_pairs_only (today resource ns ne : Nat) (u : Option Nat)
    (store : List Booking) (n : Nat) (gs : List (Nat × Nat))
    (h : (book_resource today resource ns ne u store).1 = .conflicted n gs) :
    ∀ g ∈ gs, ∃ i c nxt,
      (fetchFutureReservations resource today store)[i]? = some c ∧
      (fetchFutureReservations resource today store)[i+1]? = some nxt ∧
      c.end_date ≤ nxt.start_date ∧ g = (c.end_date, nxt.start_date) := by
  intro g hgmem
  rw [book_conflicted_gaps today resource ns ne u store n gs h] at hgmem
  exact walk_gaps_mem ns ne (fetchFutureReservations resource today store) g hgmem

/-- Witness for C4 at a concrete conflicted call: the reported window from 5 to
7 is the gap between the two consecutive fetched reservations. -/
theorem gap_coverage_pairs_only_witness :
    (book_resource 1 0 3 4 none [⟨0, none, 3, 5⟩, ⟨0, none, 7, 9⟩]).1 =
      .conflicted 1 [(5, 7)] ∧
    (∃ i c nxt,
      (fetchFutureReservations 0 1 [⟨0, none, 3, 5⟩, ⟨0, none, 7, 9⟩])[i]? = some c ∧
      (fetchFutureReservations 0 1 [⟨0, none, 3, 5⟩, ⟨0, none, 7, 9⟩])[i+1]? = some nxt ∧
      c.end_date ≤ nxt.start_date ∧ ((5 : Nat), (7 : Nat)) = (c.end_date, nxt.start_date)) :=
  ⟨by decide,
    gap_coverage_pairs_only 1 0 3 4 none [⟨0, none, 3, 5⟩, ⟨0, none, 7, 9⟩] 1 [(5, 7)]
      (by decide) (5, 7) (by decide)⟩

/-- Counterexample to C2: with today = 5, a reservation from day 0 to day 10 is
still active (its end date 10 is on/after today) yet it is excluded from the
fetched sequence, and a candidate from 6 to 8 lying inside it is committed
without any conflict being detected. -/
theorem fetch_scope_cx :
    (⟨0, none, 0, 10⟩ : Booking) ∉ fetchFutureReservations 0 5 [⟨0, none, 0, 10⟩] ∧
    (5 : Nat) ≤ 10 ∧
    (book_resource 5 0 6 8 none [⟨0, none, 0, 10⟩]).1 = .success ⟨0, none, 6, 8⟩ := by
  decide

/-- C2 as amended: the fetched sequence holds exactly the resource's
reservations whose start date is on/after today, sorted ascending by start
date; a reservation that started before today is excluded even when it has not
yet ended. -/
theorem fetch_scope_correct (resource today : Nat) (store : List Booking) :
    (∀ b : Booking, b ∈ fetchFutureReservations resource today store ↔
      b ∈ store ∧ b.resource = resource ∧ today ≤ b.start_date) ∧
    List.Sorted byStart (fetchFutureReservations resource today store) := by
  constructor
  · intro b
    simp [fetchFutureReservations, List.mem_filter, and_assoc]
  · exact List.sorted_insertionSort byStart _

/-- Counterexample to C3: with today = 1 and an empty store, a request from day
10 to day 5 (end before start) is committed rather than rejected, persisting a
reservation whose end date precedes its start date. -/
theorem end_before_start_cx :
    book_resource 1 0 10 5 none [] = (.success ⟨0, none, 10, 5⟩, [⟨0, none, 10, 5⟩]) ∧
    (5 : Nat) < 10 := by decide

/-- C3 as amended: the booking operation performs no end-before-start
validation; any request with today ≤ end < start against an empty store is
committed, so a stored reservation may have its end date before its start
date. -/
theorem end_before_start_commits (today resource ns ne : Nat) (u : Option Nat)
    (h1 : today ≤ ne) (h2 : ne < ns) :
    book_resource today resource ns ne u [] =
      (.success ⟨resource, u, ns, ne⟩, [⟨resource, u, ns, ne⟩]) := by
  unfold book_resource
  rw [if_neg (by omega)]
  simp [fetchFutureReservations]

/-- Witness for C3's amended theorem at today = 1, start = 10, end = 5. -/
theorem end_before_start_commits_witness :
    (1 : Nat) ≤ 5 ∧ (5 : Nat) < 10 ∧
    book_resource 1 0 10 5 none [] = (.success ⟨0, none, 10, 5⟩, [⟨0, none, 10, 5⟩]) :=
  ⟨by decide, by decide, end_before_start_commits 1 0 10 5 none (by decide) (by decide)⟩

/-- C5: a request whose start or end date is strictly before today fails with
the past-date error and the store is left untouched. -/
theorem past_date_rejected (today resource ns ne : Nat) (u : Option Nat)
    (store : List Booking) (h : ns < today ∨ ne < today) :
    book_resource today resource ns ne u store = (.pastDateError, store) := by
  unfold book_resource
  rw [if_pos (by omega)]

/-- Witness for C5 at today = 5, a conflict-free candidate from 3 to 7. -/
theorem past_date_rejected_witness :
    ((3 : Nat) < 5 ∨ (7 : Nat) < 5) ∧
    book_resource 5 0 3 7 none [] = (.pastDateError, []) :=
  ⟨Or.inl (by decide), past_date_rejected 5 0 3 7 none [] (Or.inl (by decide))⟩

/-- C6: a non-past request whose exact range is already booked on the resource
fails with the duplicate error, whatever else is stored, and the store is left
untouched. -/
theorem duplicate_rejected (today resource ns ne : Nat) (u : Option Nat)
    (store : List Booking) (h1 : today ≤ ns) (h2 : today ≤ ne)
    (h3 : ∃ b ∈ store, b.resource = resource ∧ b.start_date = ns ∧ b.end_date = ne) :
    book_resource today resource ns ne u store = (.duplicateError, store) := by
  obtain ⟨b, hb, e1, e2, e3⟩ := h3
  unfold book_resource
  rw [if_neg (by omega), if_pos]
  exact List.any_eq_true.2 ⟨b, hb, by simp [e1, e2, e3]⟩

/-- Witness for C6: the exact range 3 to 7 is already booked alongside another
reservation. -/
theorem duplicate_rejected_witness :
    (2 : Nat) ≤ 3 ∧ (2 : Nat) ≤ 7 ∧
    (∃ b ∈ [(⟨0, none, 9, 11⟩ : Booking), ⟨0, some 4, 3, 7⟩],
      b.resource = 0 ∧ b.start_date = 3 ∧ b.end_date = 7) ∧
    book_resource 2 0 3 7 none [⟨0, none, 9, 11⟩, ⟨0, some 4, 3, 7⟩] =
      (.duplicateError, [⟨0, none, 9, 11⟩, ⟨0, some 4, 3, 7⟩]) :=
  ⟨by decide, by decide, ⟨⟨0, some 4, 3, 7⟩, by decide, by decide, by decide, by decide⟩,
    duplicate_rejected 2 0 3 7 none [⟨0, none, 9, 11⟩, ⟨0, some 4, 3, 7⟩]
      (by decide) (by decide) ⟨⟨0, some 4, 3, 7⟩, by decide, by decide, by decide, by decide⟩⟩

/-- Flattening gap dates distributes over list append. -/
theorem gapDates_append (xs ys : List (Nat × Nat)) :
    gapDates (xs ++ ys) = gapDates xs ++ gapDates ys := by
  induction xs with
  | nil => rfl
  | cons g gs ih => simp [gapDates, ih]

/-- Every date emitted while walking a sorted, well-formed sequence is bounded
below by the start date of the sequence's head. -/
theorem walk_gapDates_lb (ns ne : Nat) (c : Booking) (l : List Booking)
    (hs : List.Sorted byStart (c :: l))
    (hwf : ∀ b ∈ c :: l, b.start_date ≤ b.end_date) :
    ∀ d ∈ gapDates (walk ns ne (c :: l)).2, c.start_date ≤ d := by
  induction l generalizing c with
  | nil =>
    intro d hd
    simp [walk, gapDates] at hd
  | cons nxt rest ih =>
    intro d hd
    have hcn : c.start_date ≤ nxt.start_date := (List.pairwise_cons.mp hs).1 nxt (by simp)
    have hstail : List.Sorted byStart (nxt :: rest) := (List.pairwise_cons.mp hs).2
    have hwftail : ∀ b ∈ nxt :: rest, b.start_date ≤ b.end_date :=
      fun b hb => hwf b (List.mem_cons_of_mem c hb)
    by_cases hg : c.end_date ≤ nxt.start_date
    · simp only [walk, hg, if_true, List.singleton_append, gapDates, List.mem_cons] at hd
      rcases hd with hd | hd | hd
      · exact hd ▸ hwf c (List.mem_cons_self c _)
      · exact hd ▸ hcn
      · exact le_trans hcn (ih nxt hstail hwftail d hd)
    · simp only [walk, hg, if_false, List.nil_append] at hd
      exact le_trans hcn (ih nxt hstail hwftail d hd)

/-- Counterexample to C8: the sequence below is sorted ascending by start date,
yet the emitted gap list (1,5), (2,6) is not monotonically increasing — the
second gap starts at 2, before the end 5 of the first gap (the middle
reservation has its end date before its start date). -/
theorem gap_monotone_cx :
    List.Sorted byStart [⟨0, none, 0, 1⟩, ⟨0, none, 5, 2⟩, ⟨0, none, 6, 7⟩] ∧
    (walk 100 200 [⟨0, none, 0, 1⟩, ⟨0, none, 5, 2⟩, ⟨0, none, 6, 7⟩]).2 = [(1, 5), (2, 6)] ∧
    ¬ List.Pairwise (fun a b => a ≤ b)
      (gapDates (walk 100 200 [⟨0, none, 0, 1⟩, ⟨0, none, 5, 2⟩, ⟨0, none, 6, 7⟩]).2) := by
  refine ⟨by decide, by decide, fun h => ?_⟩
  have h2 : gapDates (walk 100 200
      [⟨0, none, 0, 1⟩, ⟨0, none, 5, 2⟩, ⟨0, none, 6, 7⟩]).2 = [1, 5, 2, 6] := by decide
  rw [h2] at h
  have h3 : (5 : Nat) ≤ 2 :=
    (List.pairwise_cons.mp (List.pairwise_cons.mp h).2).1 2 (by decide)
  omega

/-- C8 as amended: over a sequence sorted ascending by start date in which each
reservation has start ≤ end, the walk's gap list, flattened in emission order,
is monotonically increasing — each emitted gap's dates are ≥ every earlier
emitted date (the walk never reorders the input). -/
theorem gap_monotone (ns ne : Nat) (l : List Booking)
    (hs : List.Sorted byStart l)
    (hwf : ∀ b ∈ l, b.start_date ≤ b.end_date) :
    List.Pairwise (fun a b => a ≤ b) (gapDates (walk ns ne l).2) := by
  induction l with
  | nil => simp [walk, gapDates]
  | cons c rest ih =>
    cases rest with
    | nil => simp [walk, gapDates]
    | cons nxt rest2 =>
      have hcn : c.start_date ≤ nxt.start_date := (List.pairwise_cons.mp hs).1 nxt (by simp)
      have hstail : List.Sorted byStart (nxt :: rest2) := (List.pairwise_cons.mp hs).2
      have hwftail : ∀ b ∈ nxt :: rest2, b.start_date ≤ b.end_date :=
        fun b hb => hwf b (List.mem_cons_of_mem c hb)
      have ihp := ih hstail hwftail
      have lb := walk_gapDates_lb ns ne nxt rest2 hstail hwftail
      by_cases hg : c.end_date ≤ nxt.start_date
      · simp only [walk, hg, if_true, List.singleton_append, gapDates]
        refine List.Pairwise.cons ?_ (List.Pairwise.cons (fun d hd => lb d hd) ihp)
        intro d hd
        rcases List.mem_cons.mp hd with hd | hd
        · exact hd ▸ hg
        · exact le_trans hg (lb d hd)
      · simp only [walk, hg, if_false, List.nil_append]
        exact ihp

/-- Witness for C8's amended theorem on a sorted, well-formed sequence. -/
theorem gap_monotone_witness :
    List.Sorted byStart [⟨0, none, 1, 2⟩, ⟨0, none, 3, 4⟩, ⟨0, none, 6, 8⟩] ∧
    (∀ b ∈ [(⟨0, none, 1, 2⟩ : Booking), ⟨0, none, 3, 4⟩, ⟨0, none, 6, 8⟩],
      b.start_date ≤ b.end_date) ∧
    List.Pairwise (fun a b => a ≤ b)
      (gapDates (walk 10 20 [⟨0, none, 1, 2⟩, ⟨0, none, 3, 4⟩, ⟨0, none, 6, 8⟩]).2) :=
  ⟨by decide, by decide,
    gap_monotone 10 20 [⟨0, none, 1, 2⟩, ⟨0, none, 3, 4⟩, ⟨0, none, 6, 8⟩]
      (by decide) (by decide)⟩

/-- C9: whenever the booking call does not end in a successful commit — past
date, duplicate, or a Conflicted report — the reservation store is returned
unchanged. -/
theorem no_mutation_unless_success (today resource ns ne : Nat) (u : Option Nat)
    (store : List Booking)
    (h : (book_resource today resource ns ne u store).1.isSuccess = false) :
    (book_resource today resource ns ne u store).2 = store := by
  unfold book_resource at h ⊢
  split_ifs at h ⊢ <;> simp_all [BookResult.isSuccess]

/-- Witness for C9 at a concrete conflicted call: the store is unchanged. -/
theorem no_mutation_unless_success_witness :
    (book_resource 1 0 3 4 none [⟨0, none, 3, 5⟩, ⟨0, none, 7, 9⟩]).1.isSuccess = false ∧
    (book_resource 1 0 3 4 none [⟨0, none, 3, 5⟩, ⟨0, none, 7, 9⟩]).2 =
      [⟨0, none, 3, 5⟩, ⟨0, none, 7, 9⟩] :=
  ⟨by decide,
    no_mutation_unless_success 1 0 3 4 none [⟨0, none, 3, 5⟩, ⟨0, none, 7, 9⟩] (by decide)⟩

/-- C10: the booking principal is not a call parameter — the committed
reservation carries the hidden user id of the service state, that id starts as
`None`, a successful session lookup overwrites it with the found user id, and
the my-bookings listing filters by the same hidden id. -/
theorem hidden_user_attribution :
    Services.init.user_id = none ∧
    (∀ (sessions : List (Nat × Nat)) (users : List UserRec) (sid uid : Nat) (s : ServiceState),
      sessions.lookup sid = some uid →
      (get_user_from_session_id sessions users sid s).2.user_id = some uid) ∧
    (∀ (today resource ns ne : Nat) (s : ServiceState) (store store2 : List Booking)
      (b : Booking),
      book_resource today resource ns ne s.user_id store = (.success b, store2) →
      b.user = s.user_id) ∧
    (∀ (today : Nat) (s : ServiceState) (store : List Booking),
      ∀ b ∈ list_bookings today s store, b.user = s.user_id) ∧
    (∀ (today resource ns ne : Nat) (store store2 : List Booking) (b : Booking),
      book_resource today resource ns ne Services.init.user_id store = (.success b, store2) →
      b.user = none) := by
  have key : ∀ (today resource ns ne : Nat) (uid : Option Nat) (store store2 : List Booking)
      (b : Booking),
      book_resource today resource ns ne uid store = (.success b, store2) → b.user = uid := by
    intro today resource ns ne uid store store2 b h
    unfold book_resource at h
    split_ifs at h
    all_goals simp only [Prod.mk.injEq] at h
    · exact absurd h.1 (fun hc => nomatch hc)
    · exact absurd h.1 (fun hc => nomatch hc)
    · injection h.1 with hb
      exact (congrArg Booking.user hb).symm
    · injection h.1 with hb
      exact (congrArg Booking.user hb).symm
    · exact absurd h.1 (fun hc => nomatch hc)
  refine ⟨rfl, ?_, ?_, ?_, ?_⟩
  · intro sessions users sid uid s hlk
    simp [get_user_from_session_id, hlk]
  · intro today resource ns ne s store store2 b h
    exact key today resource ns ne s.user_id store store2 b h
  · intro today s store b hb
    simp only [list_bookings, List.mem_filter, Bool.and_eq_true, beq_iff_eq,
      decide_eq_true_eq] at hb
    exact hb.2.1
  · intro today resource ns ne store store2 b h
    exact (key today resource ns ne Services.init.user_id store store2 b h).trans rfl

/-- Witness for C10: a lookup stores the session's user id, a commit under a
held id persists that id, the listing only returns that id's bookings, and a
commit on a fresh instance persists `None`. -/
theorem hidden_user_attribution_witness :
    Services.init.user_id = none ∧
    (get_user_from_session_id [(1, 42)] [] 1 ⟨none⟩).2.user_id = some 42 ∧
    (⟨0, some 7, 2, 3⟩ : Booking).user = (⟨some 7⟩ : ServiceState).user_id ∧
    (⟨0, some 7, 1, 5⟩ : Booking).user = (⟨some 7⟩ : ServiceState).user_id ∧
    (⟨0, none, 2, 3⟩ : Booking).user = none := by
  obtain ⟨h1, h2, h3, h4, h5⟩ := hidden_user_attribution
  exact ⟨h1, h2 [(1, 42)] [] 1 42 ⟨none⟩ (by decide),
    h3 1 0 2 3 ⟨some 7⟩ [] [⟨0, some 7, 2, 3⟩] ⟨0, some 7, 2, 3⟩ (by decide),
    h4 1 ⟨some 7⟩ [⟨0, some 7, 1, 5⟩] ⟨0, some 7, 1, 5⟩ (by decide),
    h5 1 0 2 3 [] [⟨0, none, 2, 3⟩] ⟨0, none, 2, 3⟩ (by decide)⟩
